import Mathlib

/-!
Verification of the fmf (Flexible Metadata Format) tree engine and CLI glue.

The development shallowly embeds:
  * the merge algebra of the Merge Engine (spec section 4.1),
  * the Selection Engine with its five criterion kinds (spec section 4.2),
  * the regular-expression search used by name and filter criteria,
  * the iterative work-stack tree loader (spec sections 4.1 and 8),
  * the tree-initialization state machine (spec section 4.4),
  * the CLI glue from fmf/cli.py (`_show` joining and per-path loop,
    `CatchAllExceptions.__call__`, the `cd` context manager, `init`), and
  * `normalize` from fmf/normalize.py.

Python strings are modelled as `List Char`, Python dictionaries as ordered
association lists (insertion order preserved, as in CPython), YAML-style raw
values as the nested inductive `Data` (fmf/typing.py `DataType`), and raised
exceptions as `Except` / `Option` error values.

The tree engine itself (fmf/base.py: `Tree`, its merge, prune, show and init
methods) is not part of the provided sources; definitions for it are modelled
from the specification text and are marked as such in their doc comments.
-/

set_option autoImplicit false
set_option linter.unusedVariables false

/-- A Python string, modelled as its list of characters. -/
abbrev Str := List Char

/-- Convenience conversion from a Lean string literal. -/
def chars (s : String) : Str := s.data

/-- RawValue (spec section 3, fmf/typing.py `DataType`): null, boolean, number,
string, sequence, or string-keyed mapping.  Numbers are modelled as integers;
mappings keep insertion order, as Python dictionaries do. -/
inductive Data where
  | null
  | bool (b : Bool)
  | num (n : Int)
  | str (s : Str)
  | list (items : List Data)
  | dict (entries : List (Str × Data))

/-- The attribute mapping of a node (fmf/typing.py `TreeData`):
an ordered mapping from string keys to raw values. -/
abbrev TreeData := List (Str × Data)

/-- Python `d[k]` / `d.get(k)` on an ordered mapping. -/
def lookup : TreeData → Str → Option Data
  | [], _ => none
  | (k', v') :: rest, k => if k' = k then some v' else lookup rest k

/-- Python `d[k] = v` on an ordered mapping: an existing key keeps its
position, a new key is appended (CPython insertion-order semantics). -/
def store : TreeData → Str → Data → TreeData
  | [], k, v => [(k, v)]
  | (k', v') :: rest, k, v => if k' = k then (k, v) :: rest else (k', v') :: store rest k v

/-- Python `del d[k]` on an ordered mapping. -/
def removeKey : TreeData → Str → TreeData
  | [], _ => []
  | (k', v') :: rest, k => if k' = k then removeKey rest k else (k', v') :: removeKey rest k

/-- Modelled from the spec: the missing Merge Engine resolves marker suffixes
before the by-key union is computed (spec section 4.1).  A child key with a
trailing `+` is an append marker, a trailing `-` a remove marker; the stored
key is the key with the suffix stripped. -/
def splitMarker (k : Str) : Str × Option Char :=
  match k.reverse with
  | '+' :: r => (r.reverse, some '+')
  | '-' :: r => (r.reverse, some '-')
  | _ => (k, none)

mutual

/-- Python `==` on raw values (structural equality), used by the remove-marker
set difference. -/
def beqData : Data → Data → Bool
  | Data.null, Data.null => true
  | Data.bool a, Data.bool b => a = b
  | Data.num a, Data.num b => a = b
  | Data.str a, Data.str b => a = b
  | Data.list a, Data.list b => beqDataList a b
  | Data.dict a, Data.dict b => beqDataDict a b
  | _, _ => false

/-- Elementwise `==` on sequences of raw values. -/
def beqDataList : List Data → List Data → Bool
  | [], [] => true
  | a :: as, b :: bs => beqData a b && beqDataList as bs
  | _, _ => false

/-- Entrywise `==` on mappings of raw values. -/
def beqDataDict : List (Str × Data) → List (Str × Data) → Bool
  | [], [] => true
  | (ka, va) :: as, (kb, vb) :: bs => ka = kb && beqData va vb && beqDataDict as bs
  | _, _ => false

end

/-- Python `x in l` for raw values. -/
def dmem (x : Data) (l : List Data) : Bool := l.any (beqData x)

/-- The elements a remove-marker child value lists for removal: a sequence
lists its items, a scalar lists itself. -/
def elemsOf : Data → List Data
  | Data.list l => l
  | d => [d]

/-- View of a raw value as a sequence, if it is one. -/
def asList : Data → Option (List Data)
  | Data.list l => some l
  | _ => none

/-- View of a raw value as a mapping, if it is one. -/
def asDict : Data → Option (List (Str × Data))
  | Data.dict d => some d
  | _ => none

theorem sizeOf_asDict {v : Data} {d : List (Str × Data)} (h : asDict v = some d) :
    sizeOf d < sizeOf v := by
  cases v <;> simp [asDict] at h
  subst h; simp

mutual

/-- Modelled from the spec: the missing Merge Engine's
`merge(parentData, childRaw) -> childResolved` (spec section 4.1).  The child's
raw entries are applied one by one to a copy of the parent's resolved data, so
a key present only in the parent is inherited unchanged and a key present only
in the child is taken as-is. -/
def merge (parent : TreeData) : TreeData → TreeData
  | [] => parent
  | (key, v) :: rest => merge (applyEntry parent key v) rest
termination_by c => sizeOf c
decreasing_by
  all_goals simp_wf <;> omega

/-- Modelled from the spec: application of one child entry (spec section 4.1).
Append marker with both values sequences concatenates parent then child;
remove marker with a sequence parent removes the child's listed elements
(set difference), with a non-sequence parent deletes the key; two mappings
merge recursively; otherwise the child value overrides the parent value. -/
def applyEntry (parent : TreeData) (key : Str) (v : Data) : TreeData :=
  match splitMarker key with
  | (k, some '+') =>
    match lookup parent k with
    | none => store parent k v
    | some pv =>
      match asList pv, asList v with
      | some pl, some cl => store parent k (Data.list (pl ++ cl))
      | _, _ =>
        match hpv : asDict pv, hv : asDict v with
        | some pd, some cd => store parent k (Data.dict (merge pd cd))
        | _, _ => store parent k v
  | (k, some '-') =>
    match lookup parent k with
    | some (Data.list pl) => store parent k (Data.list (pl.filter (fun x => !dmem x (elemsOf v))))
    | some _ => removeKey parent k
    | none => parent
  | (k, _) =>
    match lookup parent k with
    | none => store parent k v
    | some pv =>
      match hpv2 : asDict pv, hv2 : asDict v with
      | some pd, some cd => store parent k (Data.dict (merge pd cd))
      | _, _ => store parent k v
termination_by sizeOf v
decreasing_by
  all_goals simp_wf
  all_goals exact sizeOf_asDict (by assumption)

end

theorem merge_nil (p : TreeData) : merge p [] = p := by
  simp [merge]

theorem splitMarker_plus (k : Str) : splitMarker (k ++ ['+']) = (k, some '+') := by
  simp [splitMarker, List.reverse_append]

theorem splitMarker_minus (k : Str) : splitMarker (k ++ ['-']) = (k, some '-') := by
  simp [splitMarker, List.reverse_append]

theorem lookup_store_self (td : TreeData) (k : Str) (v : Data) :
    lookup (store td k v) k = some v := by
  induction td with
  | nil => simp [store, lookup]
  | cons h t ih =>
    obtain ⟨k', v'⟩ := h
    by_cases hk : k' = k
    · simp [store, lookup, hk]
    · simp [store, lookup, hk, ih]

/-- C1: a child key with append marker `+` and both values sequences merges to
the parent sequence followed by the child sequence under the stripped key; a
child key with remove marker `-` and a sequence parent merges to the parent
sequence with the child's listed elements removed; concretely, parent
`tag: [a,b]` with child `tag+: [c]` resolves to `tag: [a,b,c]`, and parent
`tag: [a,b,c]` with child `tag-: [b]` resolves to `tag: [a,c]`. -/
theorem c1_merge_markers :
    (∀ (parent : TreeData) (k : Str) (pl cl : List Data),
      lookup parent k = some (Data.list pl) →
      lookup (merge parent [(k ++ ['+'], Data.list cl)]) k = some (Data.list (pl ++ cl)))
    ∧
    (∀ (parent : TreeData) (k : Str) (pl : List Data) (v : Data),
      lookup parent k = some (Data.list pl) →
      lookup (merge parent [(k ++ ['-'], v)]) k
        = some (Data.list (pl.filter (fun x => !dmem x (elemsOf v)))))
    ∧
    merge [(chars "tag", Data.list [Data.str (chars "a"), Data.str (chars "b")])]
      [(chars "tag" ++ ['+'], Data.list [Data.str (chars "c")])]
    = [(chars "tag",
        Data.list [Data.str (chars "a"), Data.str (chars "b"), Data.str (chars "c")])]
    ∧
    merge [(chars "tag",
            Data.list [Data.str (chars "a"), Data.str (chars "b"), Data.str (chars "c")])]
      [(chars "tag" ++ ['-'], Data.list [Data.str (chars "b")])]
    = [(chars "tag", Data.list [Data.str (chars "a"), Data.str (chars "c")])] := by
  refine ⟨?_, ?_, ?_, ?_⟩
  · intro parent k pl cl h
    simp [merge, applyEntry, splitMarker_plus, h, asList, lookup_store_self]
  · intro parent k pl v h
    simp [merge, applyEntry, splitMarker_minus, h, lookup_store_self]
  · simp [merge, applyEntry, splitMarker, lookup, store, chars, asList]
  · simp [merge, applyEntry, splitMarker, lookup, store, chars, elemsOf, dmem,
      beqData, beqDataList, List.any, List.filter]

/-- Witness for C1: the general parts applied at the concrete parents
`tag: [a,b]` and `tag: [a,b,c]`. -/
theorem c1_merge_markers_witness :
    lookup (merge [(chars "tag", Data.list [Data.str (chars "a"), Data.str (chars "b")])]
        [(chars "tag" ++ ['+'], Data.list [Data.str (chars "c")])]) (chars "tag")
      = some (Data.list [Data.str (chars "a"), Data.str (chars "b"), Data.str (chars "c")])
    ∧
    lookup (merge [(chars "tag",
          Data.list [Data.str (chars "a"), Data.str (chars "b"), Data.str (chars "c")])]
        [(chars "tag" ++ ['-'], Data.list [Data.str (chars "b")])]) (chars "tag")
      = some (Data.list ([Data.str (chars "a"), Data.str (chars "b"),
          Data.str (chars "c")].filter
            (fun x => !dmem x (elemsOf (Data.list [Data.str (chars "b")]))))) := by
  constructor
  · exact c1_merge_markers.1
      [(chars "tag", Data.list [Data.str (chars "a"), Data.str (chars "b")])]
      (chars "tag") [Data.str (chars "a"), Data.str (chars "b")]
      [Data.str (chars "c")] (by simp [lookup])
  · exact c1_merge_markers.2.1
      [(chars "tag",
        Data.list [Data.str (chars "a"), Data.str (chars "b"), Data.str (chars "c")])]
      (chars "tag") [Data.str (chars "a"), Data.str (chars "b"), Data.str (chars "c")]
      (Data.list [Data.str (chars "b")]) (by simp [lookup])

/-- Modelled from the spec: regular expressions for the Selection Engine's
`names` criterion and filter patterns (spec section 4.2), as a standard
regular-expression algebra. -/
inductive Regex where
  | emp
  | eps
  | chr (c : Char)
  | alt (a b : Regex)
  | cat (a b : Regex)
  | star (a : Regex)

/-- Whether a regular expression accepts the empty string. -/
def nullable : Regex → Bool
  | Regex.emp => false
  | Regex.eps => true
  | Regex.chr _ => false
  | Regex.alt a b => nullable a || nullable b
  | Regex.cat a b => nullable a && nullable b
  | Regex.star _ => true

/-- Brzozowski derivative of a regular expression by one character. -/
def rderiv : Regex → Char → Regex
  | Regex.emp, _ => Regex.emp
  | Regex.eps, _ => Regex.emp
  | Regex.chr c, x => if c = x then Regex.eps else Regex.emp
  | Regex.alt a b, x => Regex.alt (rderiv a x) (rderiv b x)
  | Regex.cat a b, x =>
    if nullable a then Regex.alt (Regex.cat (rderiv a x) b) (rderiv b x)
    else Regex.cat (rderiv a x) b
  | Regex.star a, x => Regex.cat (rderiv a x) (Regex.star a)

/-- Whether some (possibly empty) front segment of the string matches the
regular expression. -/
def matchFront : Regex → Str → Bool
  | r, [] => nullable r
  | r, c :: s => nullable r || matchFront (rderiv r c) s

/-- Search semantics (substring match, not full match), as used by the
`names` criterion: some substring of the string matches the expression. -/
def rsearch : Regex → Str → Bool
  | r, [] => nullable r
  | r, c :: s => matchFront r (c :: s) || rsearch r s

/-- The literal string regular expression. -/
def rlit : Str → Regex
  | [] => Regex.eps
  | c :: s => Regex.cat (Regex.chr c) (rlit s)

/-- A resolved node of the Tree Index (spec section 3): virtual path, resolved
attribute data, provenance, and leafness. -/
structure Node where
  path : Str
  data : TreeData
  sources : List Str
  isLeaf : Bool

mutual

/-- Python `str()` of a raw value, as used when filter patterns are matched
against attribute values.  The spec leaves the exact rendering of nested
values open; scalars render as in Python. -/
def dataStr : Data → Str
  | Data.null => chars "None"
  | Data.bool true => chars "True"
  | Data.bool false => chars "False"
  | Data.num i => (toString i).data
  | Data.str s => s
  | Data.list l => '[' :: dataStrList l ++ [']']
  | Data.dict m => '\x7b' :: dataStrDict m ++ ['\x7d']

/-- Comma-separated rendering of sequence elements. -/
def dataStrList : List Data → Str
  | [] => []
  | [d] => dataStr d
  | d :: rest => dataStr d ++ ',' :: ' ' :: dataStrList rest

/-- Comma-separated rendering of mapping entries. -/
def dataStrDict : List (Str × Data) → Str
  | [] => []
  | [(k, d)] => k ++ ':' :: ' ' :: dataStr d
  | (k, d) :: rest => k ++ ':' :: ' ' :: dataStr d ++ ',' :: ' ' :: dataStrDict rest

end

/-- Python truthiness of a raw value. -/
def truthy : Data → Bool
  | Data.null => false
  | Data.bool b => b
  | Data.num i => decide (i ≠ 0)
  | Data.str s => !s.isEmpty
  | Data.list l => !l.isEmpty
  | Data.dict m => !m.isEmpty

/-- Modelled from the spec: the restricted condition/value expression language
(spec sections 4.2 and 9): literals, attribute names as identifiers,
dictionary/array indexing, equality, comparison and boolean operators. -/
inductive CExpr where
  | lit (v : Data)
  | var (name : Str)
  | idx (base : CExpr) (key : CExpr)
  | eqE (a b : CExpr)
  | ltE (a b : CExpr)
  | andE (a b : CExpr)
  | orE (a b : CExpr)
  | notE (a : CExpr)

/-- Modelled from the spec: evaluation of a condition expression against a
node's data as the variable namespace (spec section 4.2).  Referencing an
absent attribute or mapping key, indexing out of range, or applying an
operator to values of the wrong shape is an evaluation error. -/
def evalExpr (d : TreeData) : CExpr → Except Unit Data
  | CExpr.lit v => Except.ok v
  | CExpr.var n =>
    match lookup d n with
    | some v => Except.ok v
    | none => Except.error ()
  | CExpr.idx b k =>
    match evalExpr d b, evalExpr d k with
    | Except.ok (Data.dict m), Except.ok (Data.str s) =>
      (match lookup m s with
       | some v => Except.ok v
       | none => Except.error ())
    | Except.ok (Data.list l), Except.ok (Data.num i) =>
      (if i < 0 then Except.error ()
       else match l.get? i.toNat with
            | some v => Except.ok v
            | none => Except.error ())
    | Except.ok _, Except.ok _ => Except.error ()
    | _, _ => Except.error ()
  | CExpr.eqE a b =>
    match evalExpr d a, evalExpr d b with
    | Except.ok x, Except.ok y => Except.ok (Data.bool (beqData x y))
    | _, _ => Except.error ()
  | CExpr.ltE a b =>
    match evalExpr d a, evalExpr d b with
    | Except.ok (Data.num x), Except.ok (Data.num y) => Except.ok (Data.bool (decide (x < y)))
    | Except.ok _, Except.ok _ => Except.error ()
    | _, _ => Except.error ()
  | CExpr.andE a b =>
    match evalExpr d a, evalExpr d b with
    | Except.ok x, Except.ok y => Except.ok (Data.bool (truthy x && truthy y))
    | _, _ => Except.error ()
  | CExpr.orE a b =>
    match evalExpr d a, evalExpr d b with
    | Except.ok x, Except.ok y => Except.ok (Data.bool (truthy x || truthy y))
    | _, _ => Except.error ()
  | CExpr.notE a =>
    match evalExpr d a with
    | Except.ok x => Except.ok (Data.bool (!truthy x))
    | _ => Except.error ()

/-- Modelled from the spec: a condition evaluates to a truthy boolean; an
evaluation error is not fatal and makes the condition false for that node
(spec section 4.2). -/
def evalCondition (d : TreeData) (e : CExpr) : Bool :=
  match evalExpr d e with
  | Except.ok v => truthy v
  | Except.error _ => false

/-- A structured filter expression `key:pattern` (spec section 4.2). -/
structure FilterExpr where
  key : Str
  patt : Regex

/-- Modelled from the spec: selection criteria consumed by the Selection
Engine (spec sections 4.2 and 6). -/
structure Criteria where
  keys : List Str
  names : List Regex
  sources : List Str
  filters : List FilterExpr
  conditions : List CExpr
  whole : Bool

/-- Key criterion: all listed keys must be present in the node's data. -/
def passKeys (ks : List Str) (n : Node) : Bool :=
  ks.all (fun k => (lookup n.data k).isSome)

/-- Name criterion: some expression matches the node's path (search
semantics); an empty criterion is vacuously true. -/
def passNames (rs : List Regex) (n : Node) : Bool :=
  rs.isEmpty || rs.any (fun r => rsearch r n.path)

/-- Whether `needle` occurs contiguously at the front of `hay`. -/
def isFrontOf : Str → Str → Bool
  | [], _ => true
  | _ :: _, [] => false
  | a :: as, b :: bs => a = b && isFrontOf as bs

/-- Python `needle in hay` substring check. -/
def containsSub (needle hay : Str) : Bool :=
  match hay with
  | [] => needle.isEmpty
  | _ :: t => isFrontOf needle hay || containsSub needle t

/-- Source criterion: some source path of the node contains the given string
as a substring; an empty criterion is vacuously true. -/
def passSrcs (ss : List Str) (n : Node) : Bool :=
  ss.isEmpty || ss.any (fun s => n.sources.any (fun f => containsSub s f))

/-- One structured filter: the value under the key (stringified; for a
sequence, any element stringified) matches the pattern; an absent key fails
the filter. -/
def passFilter (fl : FilterExpr) (n : Node) : Bool :=
  match lookup n.data fl.key with
  | none => false
  | some (Data.list l) => l.any (fun x => rsearch fl.patt (dataStr x))
  | some v => rsearch fl.patt (dataStr v)

/-- Filter criterion: all filters in the set must pass (conjunction across
distinct filter occurrences). -/
def passFilters (fs : List FilterExpr) (n : Node) : Bool :=
  fs.all (fun fl => passFilter fl n)

/-- Condition criterion: all conditions must evaluate to a truthy value. -/
def passConds (cs : List CExpr) (n : Node) : Bool :=
  cs.all (fun e => evalCondition n.data e)

/-- Candidate gate: only leaves are candidates unless `whole` is requested. -/
def isCandidate (whole : Bool) (n : Node) : Bool :=
  whole || n.isLeaf

/-- Modelled from the spec: a node passes the selection when it is a candidate
and passes all five criterion kinds (spec section 4.2). -/
def passes (c : Criteria) (n : Node) : Bool :=
  isCandidate c.whole n && passKeys c.keys n && passNames c.names n
    && passSrcs c.sources n && passFilters c.filters n && passConds c.conditions n

/-- Modelled from the spec: the missing Selection Engine's
`select(tree, criteria)`, restricting the pre-order node sequence of the Tree
Index to the nodes that pass (spec section 4.2). -/
def select (tree : List Node) (c : Criteria) : List Node :=
  tree.filter (passes c)

/-- The condition `execute["missing"] == "x"` from the spec's condition-safety
example. -/
def condMissing : CExpr :=
  CExpr.eqE
    (CExpr.idx (CExpr.var (chars "execute")) (CExpr.lit (Data.str (chars "missing"))))
    (CExpr.lit (Data.str (chars "x")))

/-- A leaf node whose data lacks the key `execute`. -/
def nodeNoExec : Node :=
  Node.mk (chars "/node") [(chars "how", Data.str (chars "manual"))] [] true

/-- Criteria consisting solely of the condition `execute["missing"] == "x"`. -/
def critMissing : Criteria :=
  Criteria.mk [] [] [] [] [condMissing] false

/-- C2: an error while evaluating a boolean condition against a node's data is
not fatal: the condition evaluates to false for that node, the node is
excluded, selection continues over the remaining nodes, and no error escapes
the selection; in particular `execute["missing"] == "x"` on a node lacking
`execute` evaluates to false and excludes the node. -/
theorem c2_condition_error_safe :
    (∀ (d : TreeData) (e : CExpr) (err : Unit),
      evalExpr d e = Except.error err → evalCondition d e = false)
    ∧
    (∀ (tree : List Node) (c : Criteria) (n : Node) (e : CExpr),
      e ∈ c.conditions → evalCondition n.data e = false → n ∉ select tree c)
    ∧
    (∀ (n : Node) (rest : List Node) (c : Criteria),
      select (n :: rest) c
        = if passes c n = true then n :: select rest c else select rest c)
    ∧
    evalExpr nodeNoExec.data condMissing = Except.error ()
    ∧
    evalCondition nodeNoExec.data condMissing = false
    ∧
    select [nodeNoExec] critMissing = [] := by
  refine ⟨?_, ?_, ?_, ?_, ?_, ?_⟩
  · intro d e err h
    simp [evalCondition, h]
  · intro tree c n e he hf hn
    rw [select, List.mem_filter] at hn
    have hp := hn.2
    simp only [passes, Bool.and_eq_true, passConds, List.all_eq_true] at hp
    have := hp.2 e he
    rw [hf] at this
    exact Bool.false_ne_true this
  · intro n rest c
    simp [select, List.filter_cons]
  · rfl
  · rfl
  · rfl

/-- Witness for C2: the general parts applied to the concrete node lacking
`execute` and the concrete condition. -/
theorem c2_condition_error_safe_witness :
    evalCondition nodeNoExec.data condMissing = false
    ∧ nodeNoExec ∉ select [nodeNoExec] critMissing := by
  constructor
  · exact c2_condition_error_safe.1 nodeNoExec.data condMissing () (by rfl)
  · exact c2_condition_error_safe.2.1 [nodeNoExec] critMissing nodeNoExec condMissing
      (by simp [critMissing]) (c2_condition_error_safe.1 nodeNoExec.data condMissing () (by rfl))

/-- An internal (non-leaf) node with empty data. -/
def nodeInner : Node := Node.mk (chars "/x") [] [] false

/-- Criteria with every criterion kind empty and `whole` left at its default
(false). -/
def critEmpty : Criteria := Criteria.mk [] [] [] [] [] false

/-- Counterexample to C3 as stated: with all five criterion kinds empty (hence
vacuously passed) and `whole` at its default false, an internal node passes
all five kinds yet is not in the selected sequence, because only leaves are
candidates. -/
theorem c3_selection_iff_cx :
    passKeys critEmpty.keys nodeInner = true
    ∧ passNames critEmpty.names nodeInner = true
    ∧ passSrcs critEmpty.sources nodeInner = true
    ∧ passFilters critEmpty.filters nodeInner = true
    ∧ passConds critEmpty.conditions nodeInner = true
    ∧ nodeInner ∈ [nodeInner]
    ∧ nodeInner ∉ select [nodeInner] critEmpty := by
  refine ⟨rfl, rfl, rfl, rfl, rfl, List.mem_singleton.mpr rfl, ?_⟩
  intro h
  rw [select, List.mem_filter] at h
  exact Bool.false_ne_true h.2

/-- A leaf node carrying `tags: [Tier1, TierSecurity]`. -/
def nodeTier : Node :=
  Node.mk (chars "/download/test")
    [(chars "tags", Data.list [Data.str (chars "Tier1"), Data.str (chars "TierSecurity")])]
    [] true

/-- A leaf node carrying `tags: [Tier1, Other]` (the TierSecurity match
removed). -/
def nodeTierB : Node :=
  Node.mk (chars "/download/test")
    [(chars "tags", Data.list [Data.str (chars "Tier1"), Data.str (chars "Other")])]
    [] true

/-- The two filters `tags:Tier1` and `tags:TierSecurity`. -/
def critTier : Criteria :=
  Criteria.mk [] [] [] [FilterExpr.mk (chars "tags") (rlit (chars "Tier1")),
    FilterExpr.mk (chars "tags") (rlit (chars "TierSecurity"))] [] false

/-- C3 (amended): a node is in the selected sequence if and only if it is a
candidate (a leaf, or any node when `whole` is set) and passes all five
criterion kinds simultaneously; all filters in the set must pass; an empty
criterion of any kind is vacuously true; and for the filters
`tags:Tier1`, `tags:TierSecurity`, a node with both tags is selected while a
node missing either match is excluded. -/
theorem c3_selection_conjunction :
    (∀ (tree : List Node) (c : Criteria) (n : Node),
      n ∈ select tree c
        ↔ n ∈ tree ∧ isCandidate c.whole n = true ∧ passKeys c.keys n = true
            ∧ passNames c.names n = true ∧ passSrcs c.sources n = true
            ∧ passFilters c.filters n = true ∧ passConds c.conditions n = true)
    ∧
    (∀ (fs : List FilterExpr) (n : Node),
      passFilters fs n = true ↔ ∀ fl ∈ fs, passFilter fl n = true)
    ∧
    (∀ n : Node,
      passKeys [] n = true ∧ passNames [] n = true ∧ passSrcs [] n = true
        ∧ passFilters [] n = true ∧ passConds [] n = true)
    ∧
    select [nodeTier] critTier = [nodeTier]
    ∧
    select [nodeTierB] critTier = [] := by
  refine ⟨?_, ?_, ?_, ?_, ?_⟩
  · intro tree c n
    rw [select, List.mem_filter, passes]
    simp [Bool.and_eq_true, and_assoc]
  · intro fs n
    rw [passFilters, List.all_eq_true]
  · intro n
    exact ⟨rfl, rfl, rfl, rfl, rfl⟩
  · rfl
  · rfl

/-- Witness for C3 (amended): the selection membership characterization and
the filter conjunction evaluated at the concrete Tier node and criteria. -/
theorem c3_selection_conjunction_witness :
    (nodeTier ∈ select [nodeTier] critTier
      ↔ nodeTier ∈ [nodeTier] ∧ isCandidate critTier.whole nodeTier = true
          ∧ passKeys critTier.keys nodeTier = true
          ∧ passNames critTier.names nodeTier = true
          ∧ passSrcs critTier.sources nodeTier = true
          ∧ passFilters critTier.filters nodeTier = true
          ∧ passConds critTier.conditions nodeTier = true)
    ∧ (passFilters critTier.filters nodeTier = true
        ↔ ∀ fl ∈ critTier.filters, passFilter fl nodeTier = true) := by
  exact ⟨c3_selection_conjunction.1 [nodeTier] critTier nodeTier,
    c3_selection_conjunction.2.1 critTier.filters nodeTier⟩

/-- Modelled from the spec: a source hierarchy on disk (spec sections 2 and
6): each recognized data file contributes a raw mapping plus provenance, and
directory/virtual structure gives named children. -/
inductive Src where
  | node (file : Str) (data : TreeData) (children : List (Str × Src))

mutual

/-- Weight of a source subtree, used as the loader's termination measure. -/
def srcW : Src → Nat
  | Src.node _ _ cs => 1 + srcListW cs

/-- Total weight of a list of named source subtrees. -/
def srcListW : List (Str × Src) → Nat
  | [] => 0
  | c :: r => srcW c.2 + srcListW r

end

/-- One pending entry of the loader's explicit work stack: virtual path,
inherited resolved data, inherited provenance, and the source subtree still
to process. -/
structure Work where
  path : Str
  inh : TreeData
  isrc : List Str
  src : Src

/-- Total source weight of a work stack. -/
def stackW : List Work → Nat
  | [] => 0
  | w :: r => srcW w.src + stackW r

theorem stackW_append (a b : List Work) : stackW (a ++ b) = stackW a + stackW b := by
  induction a with
  | nil => simp [stackW]
  | cons w r ih => simp [stackW, ih]; omega

theorem stackW_map (cs : List (Str × Src)) (g : Str × Src → Str) (d : TreeData)
    (s : List Str) :
    stackW (cs.map (fun c => Work.mk (g c) d s c.2)) = srcListW cs := by
  induction cs with
  | nil => simp [stackW, srcListW]
  | cons c r ih => simp [stackW, srcListW, ih]

/-- Duplicate removal preserving first occurrence (spec section 3: provenance
keeps discovery order with duplicates removed). -/
def dedupSeen : List Str → List Str → List Str
  | _, [] => []
  | seen, s :: r => if s ∈ seen then dedupSeen seen r else s :: dedupSeen (s :: seen) r

/-- Duplicate removal preserving order of first occurrence. -/
def dedupKeep (l : List Str) : List Str := dedupSeen [] l

/-- Slash-joining of a parent virtual path and a child name; the root path is
`/` and contributes no extra slash. -/
def pathJoin (p : Str) (name : Str) : Str :=
  if p = ['/'] then p ++ name else p ++ '/' :: name

/-- Modelled from the spec: the missing Raw Loader / Merge Engine traversal
(spec sections 4.1 and 8): an iterative depth-first walk driven by an explicit
work stack (no recursion on the source hierarchy's depth), resolving each
node's data by merging the inherited data with the node's own raw data, and
emitting nodes in pre-order. -/
def loadGo : List Work → List Node → List Node
  | [], acc => acc.reverse
  | Work.mk path inh isrc (Src.node f d cs) :: rest, acc =>
    loadGo
      (cs.map (fun c =>
        Work.mk (pathJoin path c.1) (merge inh d) (dedupKeep (isrc ++ [f])) c.2) ++ rest)
      (Node.mk path (merge inh d) (dedupKeep (isrc ++ [f])) cs.isEmpty :: acc)
termination_by st _ => stackW st
decreasing_by
  simp_wf
  rw [stackW_append, stackW_map]
  simp only [stackW, srcW]
  omega

/-- Modelled from the spec: loading a whole tree from its root source. -/
def loadTree (root : Src) : List Node :=
  loadGo [Work.mk (chars "/") [] [] root] []

theorem loadGo_nil (acc : List Node) : loadGo [] acc = acc.reverse := by
  rw [loadGo.eq_def]

theorem loadGo_cons (path : Str) (inh : TreeData) (isrc : List Str) (f : Str)
    (d : TreeData) (cs : List (Str × Src)) (rest : List Work) (acc : List Node) :
    loadGo (Work.mk path inh isrc (Src.node f d cs) :: rest) acc
      = loadGo
          (cs.map (fun c =>
            Work.mk (pathJoin path c.1) (merge inh d) (dedupKeep (isrc ++ [f])) c.2) ++ rest)
          (Node.mk path (merge inh d) (dedupKeep (isrc ++ [f])) cs.isEmpty :: acc) := by
  rw [loadGo.eq_def]

/-- A synthetic linear hierarchy: `chainA n` has `n + 1` internal levels along
segment `a` and a final leaf child named `deep` at depth `n + 1` carrying
`depth: 1000`. -/
def chainA : Nat → Src
  | 0 => Src.node (chars "main.fmf") []
      [(chars "deep", Src.node (chars "deep.fmf") [(chars "depth", Data.num 1000)] [])]
  | n + 1 => Src.node (chars "main.fmf") [] [(chars "a", chainA n)]

/-- The virtual path of the deep leaf of `chainA n`, starting from path `p`. -/
def chainLeafPath : Str → Nat → Str
  | p, 0 => pathJoin p (chars "deep")
  | p, n + 1 => chainLeafPath (pathJoin p (chars "a")) n

/-- Name-regex selection for the deep leaf. -/
def critDeep : Criteria := Criteria.mk [] [rlit (chars "deep")] [] [] [] false

theorem mf_eps (s : Str) : matchFront Regex.eps s = true := by
  cases s <;> simp [matchFront, nullable]

theorem mf_alt (s : Str) : ∀ a b : Regex,
    matchFront (Regex.alt a b) s = (matchFront a s || matchFront b s) := by
  induction s with
  | nil => intro a b; simp [matchFront, nullable]
  | cons c t ih =>
    intro a b
    simp [matchFront, nullable, rderiv, ih]
    cases nullable a <;> cases nullable b <;>
      simp [Bool.or_assoc, Bool.or_comm, Bool.or_left_comm]

theorem mf_cat_emp (s : Str) : ∀ r : Regex,
    matchFront (Regex.cat Regex.emp r) s = false := by
  induction s with
  | nil => intro r; simp [matchFront, nullable]
  | cons c t ih => intro r; simp [matchFront, nullable, rderiv, ih]

theorem mf_cat_eps (s : Str) (r : Regex) :
    matchFront (Regex.cat Regex.eps r) s = matchFront r s := by
  cases s with
  | nil => simp [matchFront, nullable]
  | cons c t => simp [matchFront, nullable, rderiv, mf_alt, mf_cat_emp]

theorem mf_lit_append (p : Str) : ∀ t : Str, matchFront (rlit p) (p ++ t) = true := by
  induction p with
  | nil => intro t; simp [rlit, mf_eps]
  | cons c p' ih =>
    intro t
    simp [rlit, matchFront, nullable, rderiv, mf_cat_eps, ih]

theorem rsearch_append_deep (q : Str) :
    rsearch (rlit (chars "deep")) (q ++ chars "deep") = true := by
  induction q with
  | nil =>
    have h := mf_lit_append (chars "deep") []
    rw [List.append_nil] at h
    simp [chars] at h ⊢
    rw [rsearch]
    simp [h]
  | cons c q' ih =>
    rw [List.cons_append, rsearch]
    simp [ih]

theorem chainLeafPath_suffix (n : Nat) : ∀ p : Str,
    ∃ q : Str, chainLeafPath p n = q ++ chars "deep" := by
  induction n with
  | zero =>
    intro p
    rw [chainLeafPath, pathJoin]
    by_cases h : p = ['/']
    · exact ⟨p, by simp [h]⟩
    · exact ⟨p ++ ['/'], by simp [h]⟩
  | succ n ih =>
    intro p
    rw [chainLeafPath]
    exact ih (pathJoin p (chars "a"))

theorem loadGo_chain (n : Nat) : ∀ (path : Str) (inh : TreeData) (isrc : List Str)
    (acc : List Node),
    ∃ (leaf : Node) (mids : List Node),
      loadGo [Work.mk path inh isrc (chainA n)] acc = (leaf :: (mids ++ acc)).reverse
      ∧ mids.length = n + 1
      ∧ (∀ m ∈ mids, m.isLeaf = false)
      ∧ leaf.path = chainLeafPath path n
      ∧ leaf.isLeaf = true
      ∧ leaf.data = merge inh [(chars "depth", Data.num 1000)] := by
  induction n with
  | zero =>
    intro path inh isrc acc
    rw [chainA, loadGo_cons, merge_nil]
    simp only [List.map, List.nil_append, List.map_nil, List.append_nil]
    rw [loadGo_cons]
    simp only [List.map_nil, List.nil_append, List.isEmpty_nil]
    rw [loadGo_nil]
    refine ⟨Node.mk (pathJoin path (chars "deep"))
        (merge inh [(chars "depth", Data.num 1000)])
        (dedupKeep (dedupKeep (isrc ++ [chars "main.fmf"]) ++ [chars "deep.fmf"])) true,
      [Node.mk path inh (dedupKeep (isrc ++ [chars "main.fmf"]))
        ([(chars "deep",
            Src.node (chars "deep.fmf") [(chars "depth", Data.num 1000)] [])].isEmpty)],
      ?_, ?_, ?_, ?_, ?_, ?_⟩
    · simp
    · rfl
    · intro m hm
      simp at hm
      subst hm
      rfl
    · rfl
    · rfl
    · rfl
  | succ n ih =>
    intro path inh isrc acc
    rw [chainA, loadGo_cons, merge_nil]
    simp only [List.map, List.map_nil, List.nil_append, List.append_nil]
    obtain ⟨leaf, mids, h1, h2, h3, h4, h5, h6⟩ :=
      ih (pathJoin path (chars "a")) inh (dedupKeep (isrc ++ [chars "main.fmf"]))
        (Node.mk path inh (dedupKeep (isrc ++ [chars "main.fmf"]))
          ([(chars "a", chainA n)].isEmpty) :: acc)
    refine ⟨leaf,
      mids ++ [Node.mk path inh (dedupKeep (isrc ++ [chars "main.fmf"]))
        ([(chars "a", chainA n)].isEmpty)], ?_, ?_, ?_, ?_, ?_, ?_⟩
    · rw [h1]
      simp
    · simp [h2]
    · intro m hm
      rcases List.mem_append.mp hm with h | h
      · exact h3 m h
      · simp at h
        subst h
        rfl
    · rw [h4, chainLeafPath]
    · exact h5
    · exact h6

/-- C7: a source hierarchy whose leaf sits 1000 levels deep loads and resolves
successfully through the explicit work-stack traversal (a total function, not
recursion on the hierarchy's depth), producing all 1001 nodes, and the depth
1000 leaf is reachable by name-regex selection. -/
theorem c7_deep_hierarchy :
    (loadTree (chainA 999)).length = 1001
    ∧ ∃ nd : Node,
        select (loadTree (chainA 999)) critDeep = [nd]
        ∧ nd.path = chainLeafPath (chars "/") 999
        ∧ nd.isLeaf = true
        ∧ lookup nd.data (chars "depth") = some (Data.num 1000) := by
  obtain ⟨leaf, mids, h1, h2, h3, h4, h5, h6⟩ := loadGo_chain 999 (chars "/") [] [] []
  rw [List.append_nil] at h1
  have hload : loadTree (chainA 999) = (leaf :: mids).reverse := h1
  have hsearch : rsearch (rlit (chars "deep")) leaf.path = true := by
    obtain ⟨q, hq⟩ := chainLeafPath_suffix 999 (chars "/")
    rw [h4, hq]
    exact rsearch_append_deep q
  have hpl : passes critDeep leaf = true := by
    simp [passes, critDeep, isCandidate, h5, passKeys, passNames, passSrcs,
      passFilters, passConds, hsearch]
  have hpm : mids.filter (passes critDeep) = [] := by
    rw [List.filter_eq_nil_iff]
    intro m hm
    simp [passes, isCandidate, critDeep, h3 m hm]
  constructor
  · rw [hload]
    simp [h2]
  · refine ⟨leaf, ?_, h4, h5, ?_⟩
    · rw [hload, select, List.filter_reverse]
      simp [List.filter_cons, hpl, hpm]
    · rw [h6]
      simp [merge, applyEntry, splitMarker, lookup, store, chars]

/-- The exception taxonomy of fmf/utils.py as referenced by the CLI code:
`FormatError`, `FileError`, `FilterError`, and `GeneralError` (which chains an
optional cause, modelling `raise ... from err`). -/
inductive PyErr where
  | formatError
  | fileError
  | filterError
  | generalError (msg : Str) (cause : Option PyErr)

/-- The per-path loop of `_show` (fmf/cli.py lines 185-205): each requested
root path is loaded, selected and rendered in turn; the per-path pipeline
outcome is either its list of rendered node outputs or a raised error.  The
loop body has no error recovery, so a raised error propagates immediately. -/
def showPaths : List (Except PyErr (List Str)) → Except PyErr (List Str)
  | [] => Except.ok []
  | r :: rest =>
    match r with
    | Except.error e => Except.error e
    | Except.ok outs =>
      match showPaths rest with
      | Except.error e => Except.error e
      | Except.ok more => Except.ok (outs ++ more)

/-- Counterexample to C4 as stated: with two requested root paths where the
first raises a fatal error, the whole invocation fails and the second path's
output (produced when that path is requested alone) never appears. -/
theorem c4_show_abort_cx :
    showPaths [Except.error PyErr.fileError, Except.ok [chars "x"]]
      = Except.error PyErr.fileError
    ∧ showPaths [Except.ok [chars "x"]] = Except.ok [chars "x"] := by
  exact ⟨rfl, rfl⟩

/-- C4 (amended): a fatal error raised while processing one root path aborts
the whole show/ls invocation: root paths after the failing one are not
processed and no output is produced; a successful path contributes its
outputs before the remaining paths are processed. -/
theorem c4_show_abort :
    (∀ (e : PyErr) (rest : List (Except PyErr (List Str))),
      showPaths (Except.error e :: rest) = Except.error e)
    ∧
    (∀ (outs : List Str) (rest : List (Except PyErr (List Str))),
      showPaths (Except.ok outs :: rest)
        = match showPaths rest with
          | Except.error e => Except.error e
          | Except.ok more => Except.ok (outs ++ more))
    ∧
    showPaths [] = Except.ok [] := by
  exact ⟨fun e rest => rfl, fun outs rest => rfl, rfl⟩

/-- Witness for C4 (amended): the abort equation applied at a concrete error
and a concrete non-empty remainder. -/
theorem c4_show_abort_witness :
    showPaths [Except.error PyErr.formatError, Except.ok [chars "y"]]
      = Except.error PyErr.formatError :=
  c4_show_abort.1 PyErr.formatError [Except.ok [chars "y"]]

/-- Python `"".join(output)`. -/
def joinAll : List Str → Str
  | [] => []
  | s :: r => s ++ joinAll r

/-- Python `"\n".join(output)`. -/
def joinNL : List Str → Str
  | [] => []
  | [s] => s
  | s :: r => s ++ '\n' :: joinNL r

/-- The joining policy of `_show` (fmf/cli.py lines 207-212):
`"".join(output)` when `brief` or a truthy (non-empty) `--format` template is
present, `"\n".join(output)` otherwise. -/
def joinOutputs (brief : Bool) (formatting : Option Str) (output : List Str) : Str :=
  if brief || (match formatting with
               | some s => !s.isEmpty
               | none => false) then
    joinAll output
  else
    joinNL output

/-- Counterexample to C5 as stated: a custom format template was supplied but
is the empty string, which is falsy in Python, so the outputs are joined with
a newline rather than concatenated with no separator. -/
theorem c5_join_policy_cx :
    joinOutputs false (some []) [chars "a", chars "b"] = chars "a" ++ '\n' :: chars "b"
    ∧ chars "a" ++ '\n' :: chars "b" ≠ joinAll [chars "a", chars "b"] := by
  exact ⟨rfl, by decide⟩

/-- C5 (amended): the caller joins the per-node outputs with no separator in
brief mode or when a non-empty custom format template was supplied; with an
absent or empty template the outputs are joined with a single newline, which
places a single blank line between consecutive outputs that end with a line
terminator. -/
theorem c5_join_policy :
    (∀ (fo : Option Str) (outs : List Str), joinOutputs true fo outs = joinAll outs)
    ∧
    (∀ (c : Char) (s : Str) (outs : List Str),
      joinOutputs false (some (c :: s)) outs = joinAll outs)
    ∧
    (∀ outs : List Str, joinOutputs false none outs = joinNL outs)
    ∧
    (∀ outs : List Str, joinOutputs false (some []) outs = joinNL outs)
    ∧
    (∀ a b : Str, joinNL [a ++ ['\n'], b] = a ++ '\n' :: '\n' :: b) := by
  refine ⟨?_, ?_, fun outs => rfl, fun outs => rfl, ?_⟩
  · intro fo outs
    cases fo with
    | none => rfl
    | some s => cases s <;> rfl
  · intro c s outs
    rfl
  · intro a b
    simp [joinNL]

/-- Witness for C5 (amended): the join equations applied at concrete outputs. -/
theorem c5_join_policy_witness :
    joinOutputs true none [chars "a", chars "b"] = joinAll [chars "a", chars "b"]
    ∧ joinOutputs false (some (chars "x")) [chars "a", chars "b"]
        = joinAll [chars "a", chars "b"]
    ∧ joinNL [chars "a" ++ ['\n'], chars "b"]
        = chars "a" ++ '\n' :: '\n' :: chars "b" := by
  exact ⟨c5_join_policy.1 none [chars "a", chars "b"],
    c5_join_policy.2.1 'x' (chars "") [chars "a", chars "b"],
    c5_join_policy.2.2.2.2 (chars "a") (chars "b")⟩

/-- Decimal digit parsing of a marker string, `none` when any character is not
a digit (Python `int(text)` raising `ValueError` on non-numeric content). -/
def parseDecGo : Nat → Str → Option Nat
  | acc, [] => some acc
  | acc, c :: r => if c.isDigit then parseDecGo (acc * 10 + (c.toNat - 48)) r else none

/-- Parse a non-empty all-digit string as a natural number. -/
def parseDec (s : Str) : Option Nat :=
  if s.isEmpty then none else parseDecGo 0 s

/-- Modelled from the spec: the missing `Tree.init` (spec section 4.4), acting
on the version-marker state of one path: initializing a path that already
contains the marker is a fatal `FileError` (AlreadyInitialized); otherwise the
marker is written containing `1`. -/
def treeInit (marker : Option Str) : Except PyErr Str :=
  match marker with
  | some _ => Except.error PyErr.fileError
  | none => Except.ok (chars "1")

/-- Modelled from the spec: the missing version-marker check at tree load
(spec sections 3 and 4.4): an absent marker or non-numeric content is a fatal
`FormatError`. -/
def loadVersion (marker : Option Str) : Except PyErr Nat :=
  match marker with
  | none => Except.error PyErr.formatError
  | some s =>
    match parseDec s with
    | none => Except.error PyErr.formatError
    | some n => Except.ok n

/-- The `init` command loop (fmf/cli.py lines 164-171): `Tree.init` is applied
to each supplied path in turn; a raised error propagates. -/
def initCmd : List (Option Str) → Except PyErr (List Str)
  | [] => Except.ok []
  | m :: rest =>
    match treeInit m with
    | Except.error e => Except.error e
    | Except.ok v =>
      match initCmd rest with
      | Except.error e => Except.error e
      | Except.ok vs => Except.ok (v :: vs)

/-- C6: initializing a fresh directory succeeds and writes a marker containing
the integer 1; initializing a path that already contains the marker fails with
a fatal `FileError`, applied by the init command per supplied path; and a
missing marker or a marker corrupted to a non-numeric value makes every
subsequent load fail with `FormatError`. -/
theorem c6_init_versioning :
    treeInit none = Except.ok (chars "1")
    ∧ loadVersion (some (chars "1")) = Except.ok 1
    ∧ (∀ m : Str, treeInit (some m) = Except.error PyErr.fileError)
    ∧ (∀ s : Str, parseDec s = none → loadVersion (some s) = Except.error PyErr.formatError)
    ∧ loadVersion (some (chars "bad")) = Except.error PyErr.formatError
    ∧ loadVersion none = Except.error PyErr.formatError
    ∧ (∀ (m : Str) (rest : List (Option Str)),
        initCmd (some m :: rest) = Except.error PyErr.fileError)
    ∧ initCmd [none, none] = Except.ok [chars "1", chars "1"] := by
  refine ⟨rfl, rfl, fun m => rfl, ?_, rfl, rfl, fun m rest => rfl, rfl⟩
  intro s h
  simp [loadVersion, h]

/-- Witness for C6: the non-numeric-marker load failure applied at the
concrete corrupted marker `bad`. -/
theorem c6_init_versioning_witness :
    parseDec (chars "bad") = none
    ∧ loadVersion (some (chars "bad")) = Except.error PyErr.formatError := by
  exact ⟨rfl, c6_init_versioning.2.2.2.1 (chars "bad") rfl⟩

/-- The process state visible to the `cd` context manager: the current
working directory plus the rest of the process state (modelled abstractly as
an environment), which `cd` must not touch. -/
structure Proc where
  cwd : Str
  extra : List (Str × Str)

/-- Python `os.chdir`. -/
def chdir (t : Str) (s : Proc) : Proc := Proc.mk t s.extra

/-- Python `os.getcwd`. -/
def getcwd (s : Proc) : Str := s.cwd

/-- The `cd` context manager (fmf/cli.py lines 217-232): remember the current
directory, change to the target, run the body, and restore the remembered
directory in a `finally` block, so restoration happens whether the body
returns normally or raises (the body's outcome, including a raised error, is
passed through). -/
def cd (target : Str) (body : Proc → Proc × Option PyErr) (s : Proc) :
    Proc × Option PyErr :=
  let curdir := getcwd s
  let s1 := chdir target s
  let r := body s1
  (chdir curdir r.1, r.2)

/-- C9: `cd` runs the body in a state whose working directory is the target,
restores the working directory to its pre-entry value whether the body
returns normally or raises, passes the body's outcome through, and modifies
no other process state itself. -/
theorem c9_cd_restores :
    (∀ (t : Str) (body : Proc → Proc × Option PyErr) (s : Proc),
      (cd t body s).1.cwd = s.cwd)
    ∧
    (∀ (t : Str) (body : Proc → Proc × Option PyErr) (s : Proc),
      cd t body s = (chdir (getcwd s) (body (chdir t s)).1, (body (chdir t s)).2))
    ∧
    (∀ (t : Str) (s : Proc), getcwd (chdir t s) = t ∧ (chdir t s).extra = s.extra)
    ∧
    (∀ (t : Str) (body : Proc → Proc × Option PyErr) (s : Proc),
      (cd t body s).1.extra = (body (chdir t s)).1.extra)
    ∧
    (∀ (t : Str) (body : Proc → Proc × Option PyErr) (s : Proc),
      (cd t body s).2 = (body (chdir t s)).2)
    ∧
    (∀ (t : Str) (s : Proc), cd t (fun st => (st, none)) s = (s, none)) := by
  exact ⟨fun t body s => rfl, fun t body s => rfl, fun t s => ⟨rfl, rfl⟩,
    fun t body s => rfl, fun t body s => rfl, fun t s => rfl⟩

/-- Witness for C9: the restoration and frame equations applied at a concrete
target, body and state. -/
theorem c9_cd_restores_witness :
    (cd (chars "/tmp") (fun st => (chdir (chars "/elsewhere") st, some PyErr.fileError))
        (Proc.mk (chars "/home") [(chars "LANG", chars "C")])).1.cwd
      = (Proc.mk (chars "/home") [(chars "LANG", chars "C")]).cwd
    ∧ cd (chars "/tmp") (fun st => (st, none))
        (Proc.mk (chars "/home") [(chars "LANG", chars "C")])
      = (Proc.mk (chars "/home") [(chars "LANG", chars "C")], none) := by
  exact ⟨c9_cd_restores.1 (chars "/tmp")
      (fun st => (chdir (chars "/elsewhere") st, some PyErr.fileError))
      (Proc.mk (chars "/home") [(chars "LANG", chars "C")]),
    c9_cd_restores.2.2.2.2.2 (chars "/tmp")
      (Proc.mk (chars "/home") [(chars "LANG", chars "C")])⟩

/-- The `__cause__` of a raised error (`raise ... from err`). -/
def causeOf : PyErr → Option PyErr
  | PyErr.generalError _ c => c
  | _ => none

/-- Model of `CatchAllExceptions.__call__` (fmf/cli.py lines 118-124): run
`self.main`; a normal return passes through, and any raised exception is
re-raised as `GeneralError("fmf cli command failed")` chained from the
original one. -/
def callGroup (mainResult : Except PyErr Nat) : Except PyErr Nat :=
  match mainResult with
  | Except.ok code => Except.ok code
  | Except.error e =>
    Except.error (PyErr.generalError (chars "fmf cli command failed") (some e))

/-- C10: any exception escaping the CLI group's `__call__` is re-raised as a
`GeneralError` with message `fmf cli command failed` chained from the original
exception, so the original error class stays distinguishable as the cause;
normal returns pass through unchanged. -/
theorem c10_catch_all :
    (∀ a : Nat, callGroup (Except.ok a) = Except.ok a)
    ∧
    (∀ e : PyErr, callGroup (Except.error e)
      = Except.error (PyErr.generalError (chars "fmf cli command failed") (some e)))
    ∧
    (∀ e : PyErr, ∃ g : PyErr,
      callGroup (Except.error e) = Except.error g ∧ causeOf g = some e) := by
  exact ⟨fun a => rfl, fun e => rfl,
    fun e => ⟨PyErr.generalError (chars "fmf cli command failed") (some e), rfl, rfl⟩⟩

/-- Witness for C10: the wrapping equation applied at the concrete
`FormatError`. -/
theorem c10_catch_all_witness :
    callGroup (Except.error PyErr.formatError)
      = Except.error (PyErr.generalError (chars "fmf cli command failed")
          (some PyErr.formatError)) :=
  c10_catch_all.2.1 PyErr.formatError

/-- Whether a raw value is a Python list. -/
def Data.isList : Data → Bool
  | Data.list _ => true
  | _ => false

/-- The list-target branch of `normalize` (fmf/normalize.py lines 49-56):
when `cls` is the generic alias `list[T]`, non-list input data is first
wrapped into a singleton list, then each element is converted by the supplied
`normalizer` if one is given and by the element class `T` otherwise.  (The
non-list-target branch, lines 57-59, applies the one conversion directly and
is `normalizeScalar` below; Python dispatches both through one function.) -/
def normalizeList {α : Type} (elemCls : Data → α) (normalizer : Option (Data → α))
    (data : Data) : List α :=
  let items : List Data :=
    match data with
    | Data.list l => l
    | d => [d]
  match normalizer with
  | some f => items.map f
  | none => items.map elemCls

/-- The non-list-target branch of `normalize` (fmf/normalize.py lines 57-59). -/
def normalizeScalar {α : Type} (cls : Data → α) (normalizer : Option (Data → α))
    (data : Data) : α :=
  match normalizer with
  | some f => f data
  | none => cls data

/-- C8: for list-typed targets, `normalize` always returns a list; non-list
input is first wrapped into a singleton, so `normalize(list[T], d)` equals
`normalize(list[T], [d])` for every non-list `d`; each element is converted by
the supplied normalizer when given and by the element class otherwise; and the
result's length equals the input list's length (1 for wrapped input). -/
theorem c8_normalize_wrap :
    (∀ (α : Type) (elemCls : Data → α) (nrm : Option (Data → α)) (d : Data),
      d.isList = false →
      normalizeList elemCls nrm d = normalizeList elemCls nrm (Data.list [d]))
    ∧
    (∀ (α : Type) (elemCls : Data → α) (f : Data → α) (l : List Data),
      normalizeList elemCls (some f) (Data.list l) = l.map f)
    ∧
    (∀ (α : Type) (elemCls : Data → α) (l : List Data),
      normalizeList elemCls none (Data.list l) = l.map elemCls)
    ∧
    (∀ (α : Type) (elemCls : Data → α) (nrm : Option (Data → α)) (l : List Data),
      (normalizeList elemCls nrm (Data.list l)).length = l.length)
    ∧
    (∀ (α : Type) (elemCls : Data → α) (nrm : Option (Data → α)) (d : Data),
      d.isList = false → (normalizeList elemCls nrm d).length = 1) := by
  refine ⟨?_, fun α e f l => rfl, fun α e l => rfl, ?_, ?_⟩
  · intro α e nrm d h
    cases d <;> simp [Data.isList] at h ⊢ <;> cases nrm <;> rfl
  · intro α e nrm l
    cases nrm <;> simp [normalizeList]
  · intro α e nrm d h
    cases d <;> simp [Data.isList] at h ⊢ <;> cases nrm <;> rfl

/-- Witness for C8: the wrap equation and length applied at the concrete
non-list input `7`. -/
theorem c8_normalize_wrap_witness :
    (Data.num 7).isList = false
    ∧ normalizeList (fun d => d) none (Data.num 7)
        = normalizeList (fun d => d) none (Data.list [Data.num 7])
    ∧ (normalizeList (fun d => d) none (Data.num 7)).length = 1 := by
  exact ⟨rfl, c8_normalize_wrap.1 Data (fun d => d) none (Data.num 7) rfl,
    c8_normalize_wrap.2.2.2.2 Data (fun d => d) none (Data.num 7) rfl⟩
